import Mathlib

/-!
Verification development for the code sandbox and exporters of the 3D-model
generator repository.  JavaScript strings are modelled as `List Char`; the
deny-list regular expressions of `src/src/utils/sandbox.js` are modelled by a
small element language (`RElem`) whose deterministic greedy matcher agrees
with the JavaScript backtracking semantics on the specific patterns used
(every `\s*` is followed by a non-whitespace literal, `\s+` occurs only at
the end of a pattern, and the alternation `(?:javascript|js)?` of the fence
regex cannot gain a match by choosing a shorter alternative because the
characters it would have to re-match contain no backtick).
-/

/-- JavaScript regex word character (`\w` = `[A-Za-z0-9_]`). -/
def isWordChar (c : Char) : Bool :=
  (decide ('A' ≤ c) && decide (c ≤ 'Z')) ||
  (decide ('a' ≤ c) && decide (c ≤ 'z')) ||
  (decide ('0' ≤ c) && decide (c ≤ '9')) ||
  (c = '_')

/-- JavaScript whitespace (`\s` and the characters removed by `trim`),
restricted to the ASCII range of the model. -/
def isJsSpace (c : Char) : Bool :=
  c = ' ' || c = '\t' || c = '\n' || c = '\r' || c = '\x0b' || c = '\x0c'

/-- ASCII lower-casing, as used by the `/i` regex flag on ASCII letters. -/
def lowerC (c : Char) : Char :=
  if decide ('A' ≤ c) && decide (c ≤ 'Z') then Char.ofNat (c.toNat + 32) else c

/-- Test `startsWithL pat s` holds when `pat` is a leading segment of `s`. -/
def startsWithL : List Char → List Char → Bool
  | [], _ => true
  | _ :: _, [] => false
  | p :: ps, c :: cs => p = c && startsWithL ps cs

/-- Test `containsSub hay pat`: `pat` occurs contiguously inside `hay`
(the model of JavaScript `String.prototype.includes`). -/
def containsSub : List Char → List Char → Bool
  | [], pat => startsWithL pat []
  | c :: cs, pat => startsWithL pat (c :: cs) || containsSub cs pat

/-- One element of a deny-list regular expression: a word boundary `\b`, a
case-insensitive literal, `\s*`, or `\s+`. -/
inductive RElem where
  | wb : RElem
  | lit : List Char → RElem
  | wsStar : RElem
  | wsPlus : RElem
deriving DecidableEq

/-- Boundary `\b`: the word-character status changes between the previous character
(`none` at the start of the string) and the next one. -/
def boundaryB : Option Char → List Char → Bool
  | none, [] => false
  | none, c :: _ => isWordChar c
  | some p, [] => isWordChar p
  | some p, c :: _ => isWordChar p != isWordChar c

/-- Consume a case-insensitive literal, threading the last consumed
character (needed by a later `\b`). -/
def consumeLit : Option Char → List Char → List Char → Option (Option Char × List Char)
  | prev, s, [] => some (prev, s)
  | _, s, l :: ls =>
      match s with
      | [] => none
      | c :: cs => if lowerC c = lowerC l then consumeLit (some c) cs ls else none
termination_by structural _ _ l => l

/-- Greedily consume whitespace. -/
def consumeWs : Option Char → List Char → Option Char × List Char
  | prev, [] => (prev, [])
  | prev, c :: cs => if isJsSpace c then consumeWs (some c) cs else (prev, c :: cs)

/-- Match a single pattern element at the current position. -/
def matchElem (prev : Option Char) (s : List Char) : RElem → Option (Option Char × List Char)
  | RElem.wb => if boundaryB prev s then some (prev, s) else none
  | RElem.lit l => consumeLit prev s l
  | RElem.wsStar => some (consumeWs prev s)
  | RElem.wsPlus =>
      match s with
      | [] => none
      | c :: cs => if isJsSpace c then some (consumeWs (some c) cs) else none

/-- Match a whole element sequence at the current position. -/
def matchElems : Option Char → List Char → List RElem → Bool
  | _, _, [] => true
  | prev, s, e :: es =>
      match matchElem prev s e with
      | none => false
      | some (p, s2) => matchElems p s2 es
termination_by structural _ _ es => es

/-- Search for a match at any position (the model of `RegExp.prototype.test`),
threading the character preceding each candidate position for `\b`. -/
def searchFrom : Option Char → List Char → List RElem → Bool
  | prev, [], es => matchElems prev [] es
  | prev, c :: cs, es => matchElems prev (c :: cs) es || searchFrom (some c) cs es

/-- A deny-list rule: its element sequence and its regex source text, the
latter interpolated into the rejection message. -/
structure Pattern where
  elems : List RElem
  source : List Char
deriving DecidableEq

def testPat (p : Pattern) (code : List Char) : Bool :=
  searchFrom none code p.elems

/-- The last element of `a`, or `prev` when `a` is empty: the character
preceding position `|a|` of `a ++ b`. -/
def lastOr (prev : Option Char) : List Char → Option Char
  | [] => prev
  | c :: cs => lastOr (some c) cs

/- The eighteen FORBIDDEN_PATTERNS of sandbox.js, in source order. -/

def patFetch : Pattern := ⟨[RElem.wb, RElem.lit ("fetch".toList), RElem.wsStar, RElem.lit ("(".toList)], "\\bfetch\\s*\\(".toList⟩
def patEvalCall : Pattern := ⟨[RElem.wb, RElem.lit ("eval".toList), RElem.wsStar, RElem.lit ("(".toList)], "\\beval\\s*\\(".toList⟩
def patFunction : Pattern := ⟨[RElem.wb, RElem.lit ("Function".toList), RElem.wsStar, RElem.lit ("(".toList)], "\\bFunction\\s*\\(".toList⟩
def patDocument : Pattern := ⟨[RElem.wb, RElem.lit ("document".toList), RElem.wsStar, RElem.lit (".".toList)], "\\bdocument\\s*\\.".toList⟩
def patWindow : Pattern := ⟨[RElem.wb, RElem.lit ("window".toList), RElem.wsStar, RElem.lit (".".toList)], "\\bwindow\\s*\\.".toList⟩
def patImport : Pattern := ⟨[RElem.wb, RElem.lit ("import".toList), RElem.wsPlus], "\\bimport\\s+".toList⟩
def patRequire : Pattern := ⟨[RElem.wb, RElem.lit ("require".toList), RElem.wsStar, RElem.lit ("(".toList)], "\\brequire\\s*\\(".toList⟩
def patLocalStorage : Pattern := ⟨[RElem.wb, RElem.lit ("localStorage".toList), RElem.wb], "\\blocalStorage\\b".toList⟩
def patSessionStorage : Pattern := ⟨[RElem.wb, RElem.lit ("sessionStorage".toList), RElem.wb], "\\bsessionStorage\\b".toList⟩
def patCookie : Pattern := ⟨[RElem.wb, RElem.lit ("cookie".toList), RElem.wb], "\\bcookie\\b".toList⟩
def patXHR : Pattern := ⟨[RElem.wb, RElem.lit ("XMLHttpRequest".toList), RElem.wb], "\\bXMLHttpRequest\\b".toList⟩
def patWebSocket : Pattern := ⟨[RElem.wb, RElem.lit ("WebSocket".toList), RElem.wb], "\\bWebSocket\\b".toList⟩
def patWorker : Pattern := ⟨[RElem.wb, RElem.lit ("worker".toList), RElem.wb], "\\bworker\\b".toList⟩
def patSetTimeout : Pattern := ⟨[RElem.wb, RElem.lit ("setTimeout".toList), RElem.wsStar, RElem.lit ("(".toList)], "\\bsetTimeout\\s*\\(".toList⟩
def patSetInterval : Pattern := ⟨[RElem.wb, RElem.lit ("setInterval".toList), RElem.wsStar, RElem.lit ("(".toList)], "\\bsetInterval\\s*\\(".toList⟩
def patProto : Pattern := ⟨[RElem.wb, RElem.lit ("__proto__".toList), RElem.wb], "\\b__proto__\\b".toList⟩
def patPrototype : Pattern := ⟨[RElem.wb, RElem.lit ("prototype".toList), RElem.wb], "\\bprototype\\b".toList⟩
def patCtorIndex : Pattern := ⟨[RElem.wb, RElem.lit ("constructor".toList), RElem.wsStar, RElem.lit ("[".toList)], "\\bconstructor\\s*\\[".toList⟩

def FORBIDDEN_PATTERNS : List Pattern :=
  [patFetch, patEvalCall, patFunction, patDocument, patWindow, patImport,
   patRequire, patLocalStorage, patSessionStorage, patCookie, patXHR,
   patWebSocket, patWorker, patSetTimeout, patSetInterval, patProto,
   patPrototype, patCtorIndex]

structure ValidationResult where
  valid : Bool
  error : Option (List Char)
deriving DecidableEq

/-- The rejection message of a fired deny-list rule. -/
def secMsg (p : Pattern) : List Char :=
  "Security violation: Forbidden pattern detected (".toList ++ p.source ++ ")".toList

/-- The structural-requirement rejection message. -/
def structuralMsg : List Char :=
  "Code must contain a \"function createObject()\" definition".toList

/-- Function `validateCode` of sandbox.js: first matching deny-list rule wins;
otherwise the code must contain `function createObject`. -/
def validateCode (code : List Char) : ValidationResult :=
  match FORBIDDEN_PATTERNS.find? (fun p => testPat p code) with
  | some p => ⟨false, some (secMsg p)⟩
  | none =>
      if containsSub code ("function createObject".toList) then ⟨true, none⟩
      else ⟨false, some structuralMsg⟩

example : testPat patFetch ("fetch(x)".toList) = true := by decide
example : (validateCode ("hello".toList)).error = some structuralMsg := by decide
example : (validateCode ("function createObject() \x7b return 1; \x7d".toList)).valid = true := by decide
example : (validateCode ("const f = function () \x7b\x7d; function createObject() \x7b\x7d".toList)).valid = false := by decide

/-!
Section: The executor (`executeThreeJSCode` of sandbox.js)

The sandboxed evaluation performed by `new Function('THREE', body)(THREE)` is
a host-engine operation; it is modelled by an oracle `evalFn` mapping the
constructed body text to its outcome (a returned value or a thrown error
message).  The executor is instrumented with the number of times this
evaluation is performed, so that "execution call count = 0" is expressible.
-/

/-- A JavaScript value as far as the executor observes one: `null`,
`undefined`, an object (with its `instanceof THREE.Object3D` status and
`constructor.name`), or a primitive (with its truthiness, boxed
`constructor.name` and `typeof`). -/
inductive JSValue where
  | nullV : JSValue
  | undefinedV : JSValue
  | obj : Bool → Option (List Char) → JSValue
  | prim : Bool → Option (List Char) → List Char → JSValue
deriving DecidableEq

/-- JavaScript truthiness, as tested by `if (!result)`. -/
def truthy : JSValue → Bool
  | JSValue.nullV => false
  | JSValue.undefinedV => false
  | JSValue.obj _ _ => true
  | JSValue.prim b _ _ => b

/-- Test `result instanceof THREE.Object3D`. -/
def isObject3D : JSValue → Bool
  | JSValue.obj b _ => b
  | _ => false

/-- Expression `typeof result`. -/
def typeofName : JSValue → List Char
  | JSValue.nullV => "object".toList
  | JSValue.undefinedV => "undefined".toList
  | JSValue.obj _ _ => "object".toList
  | JSValue.prim _ _ ty => ty

/-- Expression `result.constructor?.name`. -/
def ctorNameOf : JSValue → Option (List Char)
  | JSValue.obj _ n => n
  | JSValue.prim _ n _ => n
  | _ => none

/-- Expression `result.constructor?.name || typeof result` (an empty name is falsy). -/
def kindName (v : JSValue) : List Char :=
  match ctorNameOf v with
  | some n => if n = [] then typeofName v else n
  | none => typeofName v

/-- Outcome of the sandboxed evaluation: the value returned by
`createObject()`, or a thrown error message (covering a syntax error of the
fragment, the wrapper's own entry-point-missing throw, and any throw from
the fragment's body). -/
inductive EvalOutcome where
  | ok : JSValue → EvalOutcome
  | thrown : List Char → EvalOutcome
deriving DecidableEq

/-- What `executeThreeJSCode` does: returns the node or throws a message. -/
inductive ExecResult where
  | ok : JSValue → ExecResult
  | thrown : List Char → ExecResult
deriving DecidableEq

/-- The body text handed to `new Function('THREE', ...)`: the template
literal of sandbox.js with the fragment interpolated. -/
def wrapBody (code : List Char) : List Char :=
  "\n            \"use strict\";\n            ".toList ++ code ++
  "\n            if (typeof createObject !== \x27function\x27) \x7b\n                throw new Error(\x27createObject function not found\x27);\n            \x7d\n            return createObject();\n        ".toList

def nullUndefMsg : List Char :=
  "Code execution failed: createObject() returned null or undefined".toList

def wrongKindMsg (v : JSValue) : List Char :=
  "Code execution failed: Expected THREE.Object3D but got ".toList ++ kindName v

/-- Function `executeThreeJSCode` of sandbox.js, instrumented with the number of
sandboxed evaluations performed (second component).  The `try`/`catch`
rewrapping (`Code execution failed: ...` unless the message already contains
`Security violation`) is applied where each inner throw occurs. -/
def executeThreeJSCode (evalFn : List Char → EvalOutcome) (codeString : List Char) :
    ExecResult × Nat :=
  let validation := validateCode codeString
  if validation.valid = false then
    (ExecResult.thrown (validation.error.getD []), 0)
  else
    match evalFn (wrapBody codeString) with
    | EvalOutcome.thrown m =>
        if containsSub m ("Security violation".toList) then
          (ExecResult.thrown m, 1)
        else
          (ExecResult.thrown ("Code execution failed: ".toList ++ m), 1)
    | EvalOutcome.ok v =>
        if truthy v = false then
          (ExecResult.thrown nullUndefMsg, 1)
        else if isObject3D v then
          (ExecResult.ok v, 1)
        else
          (ExecResult.thrown (wrongKindMsg v), 1)

/-!
Section: The extractor (`cleanCode` of sandbox.js)

`cleanCode` applies the regex `/```(?:javascript|js)?\n?([\s\S]*?)```/` to
find the first fenced block and falls back to the whole input, then trims.
The matcher below is deterministic-greedy; this agrees with the regex
because neither the language tag nor the optional newline can steal the
characters a later backtick fence needs.
-/

def ticksL : List Char := "```".toList

/-- The lazily matched group `([\s\S]*?)` followed by the closing fence:
the shortest leading segment whose remainder starts with three backticks. -/
def findInner : List Char → Option (List Char)
  | [] => none
  | c :: cs =>
      if startsWithL ticksL (c :: cs) then some []
      else (findInner cs).map (fun r => c :: r)

/-- The optional language tag `(?:javascript|js)?`, alternatives in regex
order. -/
def langStep (r1 : List Char) : List Char :=
  if startsWithL ("javascript".toList) r1 then r1.drop 10
  else if startsWithL ("js".toList) r1 then r1.drop 2
  else r1

/-- The optional newline `\n?`. -/
def nlStep : List Char → List Char
  | [] => []
  | c :: rest => if c = '\n' then rest else c :: rest

/-- Match the fence regex at the current position, returning group 1. -/
def matchFenceAt (s : List Char) : Option (List Char) :=
  if startsWithL ticksL s then findInner (nlStep (langStep (s.drop 3)))
  else none

/-- Leftmost match of the fence regex (the model of `String.prototype.match`
without the `g` flag: group 1 of the first position that matches). -/
def findFence : List Char → Option (List Char)
  | [] => matchFenceAt []
  | c :: cs =>
      match matchFenceAt (c :: cs) with
      | some inner => some inner
      | none => findFence cs

/-- Method `String.prototype.trim` (ASCII whitespace set of the model). -/
def jsTrim (s : List Char) : List Char :=
  ((s.dropWhile isJsSpace).reverse.dropWhile isJsSpace).reverse

/-- Function `cleanCode` of sandbox.js. -/
def cleanCode (rawCode : List Char) : List Char :=
  match findFence rawCode with
  | some inner => jsTrim inner
  | none => jsTrim rawCode

/-- A fragment wrapped in a javascript-tagged fence, as in the round-trip
property of the spec. -/
def wrapFence (x : List Char) : List Char :=
  "```javascript\n".toList ++ x ++ "\n```".toList

example : cleanCode ("```js\nlet a = 1;\n```".toList) = "let a = 1;".toList := by decide
example : cleanCode ("  no fence here ".toList) = "no fence here".toList := by decide
example : cleanCode (wrapFence ("let a = 1;".toList)) = "let a = 1;".toList := by decide
example : cleanCode ("```js```".toList) = [] := by decide
example : cleanCode ("say ```js\ncode``` done".toList) = "code".toList := by decide

/-!
Section: The exporters (`exportGLTF` / `exportOBJ` of exporters.js)

Both exporters rebuild an export scene from `scene.children`, skipping
infrastructure and cloning meshes and groups; the clone is modelled as the
identity on the observed child data.
-/

/-- A top-level scene child, carrying exactly the flags the exporters test:
`isGridHelper`, `isLight`, the child's own `isShadowMaterial`, the presence
and `isShadowMaterial` flag of `child.material`, `isMesh` and `isGroup`. -/
structure SceneChild where
  isGridHelper : Bool
  isLight : Bool
  isShadowMaterial : Bool
  hasMaterial : Bool
  materialIsShadowMaterial : Bool
  isMesh : Bool
  isGroup : Bool
deriving DecidableEq

/-- The per-child selection of `exportGLTF`: the two skip guards followed by
the mesh-or-group clone condition. -/
def gltfKeep (c : SceneChild) : Bool :=
  if c.isGridHelper || c.isLight || c.isShadowMaterial then false
  else if c.hasMaterial && c.materialIsShadowMaterial then false
  else c.isMesh || c.isGroup

/-- The per-child selection of `exportOBJ` (no `child.isShadowMaterial`
test in its first guard). -/
def objKeep (c : SceneChild) : Bool :=
  if c.isGridHelper || c.isLight then false
  else if c.hasMaterial && c.materialIsShadowMaterial then false
  else c.isMesh || c.isGroup

/-- The children adopted by the temporary export scene of `exportGLTF`. -/
def exportGLTFChildren (children : List SceneChild) : List SceneChild :=
  children.filter gltfKeep

/-- The children adopted by the temporary export scene of `exportOBJ`. -/
def exportOBJChildren (children : List SceneChild) : List SceneChild :=
  children.filter objKeep

/-- A user node in the sense of the claim: a mesh or group that carries none
of the infrastructure marks. -/
def isUserNode (c : SceneChild) : Bool :=
  (c.isMesh || c.isGroup) && !c.isGridHelper && !c.isLight &&
  !c.isShadowMaterial && !(c.hasMaterial && c.materialIsShadowMaterial)

/-- An infrastructure node: the grid helper, a light, or the
shadow-material ground plane. -/
def isInfraNode (c : SceneChild) : Bool :=
  c.isGridHelper || c.isLight ||
  (c.isMesh && c.hasMaterial && c.materialIsShadowMaterial)

/-!
Section: Helper lemmas: shared string facts
-/

lemma sw_refl : ∀ p : List Char, startsWithL p p = true := by
  intro p
  induction p with
  | nil => rfl
  | cons c cs ih => simp [startsWithL, ih]

lemma sw_append {p s : List Char} (t : List Char)
    (h : startsWithL p s = true) : startsWithL p (s ++ t) = true := by
  induction p generalizing s with
  | nil => rfl
  | cons x xs ih =>
      cases s with
      | nil => simp [startsWithL] at h
      | cons c cs =>
          simp [startsWithL] at h ⊢
          exact ⟨h.1, ih h.2⟩

/-!
Section: Helper lemmas: the extractor
-/

abbrev allSpace (w : List Char) : Prop := ∀ c ∈ w, isJsSpace c = true

lemma matchFenceAt_nil : matchFenceAt [] = none := rfl

/-- A match at the leftmost matching position is what `findFence` returns. -/
lemma findFence_of_first : ∀ (s : List Char) (i : Nat) (inner : List Char),
    matchFenceAt (s.drop i) = some inner →
    (∀ j, j < i → matchFenceAt (s.drop j) = none) →
    findFence s = some inner := by
  intro s i
  induction i generalizing s with
  | zero =>
      intro inner hi _
      simp only [List.drop_zero] at hi
      cases s with
      | nil => rw [matchFenceAt_nil] at hi; cases hi
      | cons c cs => unfold findFence; rw [hi]
  | succ i ih =>
      intro inner hi hmin
      cases s with
      | nil =>
          rw [List.drop_nil, matchFenceAt_nil] at hi
          cases hi
      | cons c cs =>
          have h0 : matchFenceAt (c :: cs) = none := hmin 0 (Nat.succ_pos i)
          unfold findFence
          rw [h0]
          exact ih cs inner hi (fun j hj => hmin (j + 1) (Nat.succ_lt_succ hj))

lemma findFence_none : ∀ s : List Char,
    (∀ j, matchFenceAt (s.drop j) = none) → findFence s = none := by
  intro s
  induction s with
  | nil => intro _; rfl
  | cons c cs ih =>
      intro h
      have h0 : matchFenceAt (c :: cs) = none := by simpa using h 0
      unfold findFence
      rw [h0]
      exact ih (fun j => h (j + 1))

lemma findFence_none_all : ∀ s : List Char, findFence s = none →
    ∀ j, matchFenceAt (s.drop j) = none := by
  intro s
  induction s with
  | nil => intro _ j; rw [List.drop_nil, matchFenceAt_nil]
  | cons c cs ih =>
      intro h j
      unfold findFence at h
      cases hm : matchFenceAt (c :: cs) with
      | some x => rw [hm] at h; cases h
      | none =>
          rw [hm] at h
          cases j with
          | zero => exact hm
          | succ j => exact ih h j

lemma findFence_exists_of_some : ∀ (s inner : List Char),
    findFence s = some inner → ∃ j, matchFenceAt (s.drop j) = some inner := by
  intro s
  induction s with
  | nil =>
      intro inner h
      rw [show findFence [] = none from rfl] at h
      cases h
  | cons c cs ih =>
      intro inner h
      unfold findFence at h
      cases hm : matchFenceAt (c :: cs) with
      | some x =>
          rw [hm] at h
          refine ⟨0, ?_⟩
          rw [List.drop_zero, hm]
          exact h
      | none =>
          rw [hm] at h
          obtain ⟨j, hj⟩ := ih inner h
          exact ⟨j + 1, hj⟩

lemma sw_length_le {p s : List Char} (h : startsWithL p s = true) :
    p.length ≤ s.length := by
  induction p generalizing s with
  | nil => simp
  | cons x xs ih =>
      cases s with
      | nil => simp [startsWithL] at h
      | cons c cs =>
          simp only [startsWithL, Bool.and_eq_true] at h
          simpa using ih h.2

/-- Appending all-whitespace text cannot change whether a whitespace-free
literal occurs at the front. -/
lemma sw_ne_ws {p : List Char} (hp : ∀ c ∈ p, isJsSpace c = false) :
    ∀ (t w : List Char), allSpace w →
    startsWithL p (t ++ w) = startsWithL p t := by
  induction p with
  | nil => intro t w _; rfl
  | cons x xs ih =>
      intro t w hw
      cases t with
      | nil =>
          show startsWithL (x :: xs) w = startsWithL (x :: xs) []
          cases w with
          | nil => rfl
          | cons c cw =>
              have hx : isJsSpace x = false := hp x (by simp)
              have hc : isJsSpace c = true := hw c (by simp)
              have hne : (x = c) = False := by
                simp only [eq_iff_iff, iff_false]
                intro hxc
                rw [hxc, hc] at hx
                cases hx
              simp [startsWithL, hne]
      | cons a t' =>
          simp only [List.cons_append, startsWithL, List.append_eq]
          rw [ih (fun c hc => hp c (List.mem_cons_of_mem _ hc)) t' w hw]

lemma findInner_cons (c : Char) (cs : List Char) :
    findInner (c :: cs) =
      if startsWithL ticksL (c :: cs) = true then some []
      else (findInner cs).map (fun r => c :: r) := rfl

lemma bool_neg {b : Bool} (h : b = false) : ¬ (b = true) := by
  rw [h]; intro hc; cases hc

lemma findInner_append_ws : ∀ (t : List Char) {inner w : List Char},
    allSpace w → findInner t = some inner →
    findInner (t ++ w) = some inner := by
  intro t
  induction t with
  | nil => intro inner w _ h; cases h
  | cons c cs ih =>
      intro inner w hw h
      rw [findInner_cons] at h
      rw [List.cons_append, findInner_cons]
      cases hsw : startsWithL ticksL (c :: cs) with
      | true =>
          rw [if_pos hsw] at h
          have hsw2 : startsWithL ticksL (c :: (cs ++ w)) = true := by
            rw [← List.cons_append]
            exact sw_append w hsw
          rw [if_pos hsw2]
          exact h
      | false =>
          rw [if_neg (bool_neg hsw)] at h
          have hsw2 : startsWithL ticksL (c :: (cs ++ w)) = false := by
            rw [← List.cons_append]
            exact (sw_ne_ws (p := ticksL) (by decide) (c :: cs) w hw).trans hsw
          rw [if_neg (bool_neg hsw2)]
          obtain ⟨r0, hr0, hinner⟩ : ∃ r0, findInner cs = some r0 ∧ c :: r0 = inner := by
            cases hfi : findInner cs with
            | none => rw [hfi] at h; cases h
            | some r0 => rw [hfi] at h; exact ⟨r0, rfl, by simpa using h⟩
          rw [ih hw hr0]
          simpa using hinner

lemma bool_eq_false {b : Bool} (h : ¬ (b = true)) : b = false := by
  cases b
  · rfl
  · exact absurd rfl h

lemma langStep_append {r1 w : List Char} (hw : allSpace w) :
    langStep (r1 ++ w) = langStep r1 ++ w := by
  unfold langStep
  by_cases hj : startsWithL ("javascript".toList) r1 = true
  · have hj2 : startsWithL ("javascript".toList) (r1 ++ w) = true := sw_append w hj
    rw [if_pos hj2, if_pos hj]
    exact List.drop_append_of_le_length (by simpa using sw_length_le hj)
  · have hj2 : startsWithL ("javascript".toList) (r1 ++ w) = false :=
      (sw_ne_ws (by decide) r1 w hw).trans (bool_eq_false hj)
    rw [if_neg (bool_neg hj2), if_neg hj]
    by_cases hs : startsWithL ("js".toList) r1 = true
    · have hs2 : startsWithL ("js".toList) (r1 ++ w) = true := sw_append w hs
      rw [if_pos hs2, if_pos hs]
      exact List.drop_append_of_le_length (by simpa using sw_length_le hs)
    · have hs2 : startsWithL ("js".toList) (r1 ++ w) = false :=
        (sw_ne_ws (by decide) r1 w hw).trans (bool_eq_false hs)
      rw [if_neg (bool_neg hs2), if_neg hs]

lemma matchFenceAt_append_ws {s w inner : List Char} (hw : allSpace w)
    (h : matchFenceAt s = some inner) : matchFenceAt (s ++ w) = some inner := by
  unfold matchFenceAt at h ⊢
  cases hsw : startsWithL ticksL s with
  | false => rw [if_neg (bool_neg hsw)] at h; cases h
  | true =>
      rw [if_pos hsw] at h
      have hsw2 : startsWithL ticksL (s ++ w) = true := sw_append w hsw
      rw [if_pos hsw2]
      have h3 : (3 : Nat) ≤ s.length := by simpa using sw_length_le hsw
      rw [List.drop_append_of_le_length h3, langStep_append hw]
      cases hr : langStep (s.drop 3) with
      | nil => rw [hr] at h; cases h
      | cons c rest =>
          rw [hr] at h
          rw [List.cons_append]
          by_cases hc : c = '\n'
          · subst hc
            simp only [nlStep, if_pos rfl] at h ⊢
            exact findInner_append_ws rest hw h
          · simp only [nlStep, if_neg hc] at h ⊢
            rw [← List.cons_append]
            exact findInner_append_ws (c :: rest) hw h

/-!
Section: Helper lemmas: trimming
-/

lemma length_dw_le (p : Char → Bool) (l : List Char) :
    (l.dropWhile p).length ≤ l.length := by
  induction l with
  | nil => simp
  | cons c cs ih =>
      rw [List.dropWhile_cons]
      by_cases hp : p c = true
      · rw [if_pos hp]
        exact le_trans ih (Nat.le_succ _)
      · rw [if_neg hp]

lemma dropWhile_dropWhile (p : Char → Bool) (l : List Char) :
    (l.dropWhile p).dropWhile p = l.dropWhile p := by
  induction l with
  | nil => rfl
  | cons c cs ih =>
      rw [List.dropWhile_cons]
      by_cases hp : p c = true
      · rw [if_pos hp]
        exact ih
      · rw [if_neg hp, List.dropWhile_cons, if_neg hp]

lemma dropWhile_head_false {p : Char → Bool} {c : Char} {l : List Char}
    (h : (c :: l).dropWhile p = c :: l) : p c = false := by
  by_cases hp : p c = true
  · rw [List.dropWhile_cons, if_pos hp] at h
    have hlen := congrArg List.length h
    have hle := length_dw_le p l
    simp only [List.length_cons] at hlen
    omega
  · exact bool_eq_false hp

lemma dropWhile_eq_self_append {p : Char → Bool} {u v : List Char}
    (h : (u ++ v).dropWhile p = u ++ v) : u.dropWhile p = u := by
  cases u with
  | nil => rfl
  | cons c u' =>
      rw [List.cons_append] at h
      have hc := dropWhile_head_false h
      rw [List.dropWhile_cons, if_neg (bool_neg hc)]

lemma jsTrim_decomp (s : List Char) :
    ∃ w1 w2, s = w1 ++ jsTrim s ++ w2 ∧ allSpace w1 ∧ allSpace w2 := by
  refine ⟨s.takeWhile isJsSpace,
    ((s.dropWhile isJsSpace).reverse.takeWhile isJsSpace).reverse, ?_, ?_, ?_⟩
  · unfold jsTrim
    rw [List.append_assoc]
    conv_lhs => rw [← List.takeWhile_append_dropWhile isJsSpace s]
    congr 1
    conv_lhs => rw [← List.reverse_reverse (s.dropWhile isJsSpace),
      ← List.takeWhile_append_dropWhile isJsSpace (s.dropWhile isJsSpace).reverse,
      List.reverse_append]
  · intro c hc
    exact List.mem_takeWhile_imp hc
  · intro c hc
    rw [List.mem_reverse] at hc
    exact List.mem_takeWhile_imp hc

lemma jsTrim_idem (s : List Char) : jsTrim (jsTrim s) = jsTrim s := by
  have ht : (s.dropWhile isJsSpace).dropWhile isJsSpace = s.dropWhile isJsSpace :=
    dropWhile_dropWhile _ _
  have hdec : jsTrim s ++ ((s.dropWhile isJsSpace).reverse.takeWhile isJsSpace).reverse
      = s.dropWhile isJsSpace := by
    unfold jsTrim
    conv_rhs => rw [← List.reverse_reverse (s.dropWhile isJsSpace),
      ← List.takeWhile_append_dropWhile isJsSpace (s.dropWhile isJsSpace).reverse,
      List.reverse_append]
  have h1 : (jsTrim s).dropWhile isJsSpace = jsTrim s :=
    dropWhile_eq_self_append (by rw [hdec]; exact ht)
  show (((jsTrim s).dropWhile isJsSpace).reverse.dropWhile isJsSpace).reverse = jsTrim s
  rw [h1]
  have h2 : (jsTrim s).reverse = (s.dropWhile isJsSpace).reverse.dropWhile isJsSpace := by
    unfold jsTrim
    rw [List.reverse_reverse]
  rw [h2, dropWhile_dropWhile]
  rw [← h2, List.reverse_reverse]

lemma allSpace_reverse {w : List Char} (hw : allSpace w) : allSpace w.reverse :=
  fun c hc => hw c (List.mem_reverse.mp hc)

lemma dropWhile_append_allSpace {w b : List Char} (hw : allSpace w) :
    (w ++ b).dropWhile isJsSpace = b.dropWhile isJsSpace := by
  induction w with
  | nil => rfl
  | cons c cw ih =>
      rw [List.cons_append, List.dropWhile_cons, if_pos (hw c (by simp))]
      exact ih (fun x hx => hw x (by simp [hx]))

lemma jsTrim_cons_ws {c : Char} {t : List Char} (hc : isJsSpace c = true) :
    jsTrim (c :: t) = jsTrim t := by
  unfold jsTrim
  rw [List.dropWhile_cons, if_pos hc]

lemma jsTrim_append_ws : ∀ (x : List Char) {w : List Char}, allSpace w →
    jsTrim (x ++ w) = jsTrim x := by
  intro x
  induction x with
  | nil =>
      intro w hw
      have hnil : w.dropWhile isJsSpace = [] := by
        have := dropWhile_append_allSpace (b := []) hw
        simpa using this
      show jsTrim w = jsTrim []
      unfold jsTrim
      rw [hnil]
      rfl
  | cons c cs ih =>
      intro w hw
      by_cases hc : isJsSpace c = true
      · rw [List.cons_append, jsTrim_cons_ws hc, jsTrim_cons_ws hc]
        exact ih hw
      · rw [List.cons_append]
        unfold jsTrim
        rw [List.dropWhile_cons, List.dropWhile_cons, if_neg hc, if_neg hc]
        congr 1
        have hrev : (c :: (cs ++ w)).reverse = w.reverse ++ (cs.reverse ++ [c]) := by
          simp [List.reverse_cons, List.reverse_append, List.append_assoc]
        rw [hrev, dropWhile_append_allSpace (allSpace_reverse hw)]
        congr 1
        rw [List.reverse_cons]

/-!
Section: Helper lemmas: substring occurrence
-/

lemma sw_nil_iff {p : List Char} : startsWithL p [] = true ↔ p = [] := by
  cases p <;> simp [startsWithL]

lemma containsSub_false_all {hay pat : List Char} (h : containsSub hay pat = false) :
    ∀ j, startsWithL pat (hay.drop j) = false := by
  induction hay with
  | nil =>
      intro j
      rw [List.drop_nil]
      exact h
  | cons c cs ih =>
      intro j
      have h2 : startsWithL pat (c :: cs) = false ∧ containsSub cs pat = false := by
        have h3 : (startsWithL pat (c :: cs) || containsSub cs pat) = false := h
        simpa using h3
      cases j with
      | zero => simpa using h2.1
      | succ j => exact ih h2.2 j

lemma containsSub_true_exists {hay pat : List Char} (h : containsSub hay pat = true) :
    ∃ j, j ≤ hay.length ∧ startsWithL pat (hay.drop j) = true := by
  induction hay with
  | nil => exact ⟨0, by simp, h⟩
  | cons c cs ih =>
      have h3 : startsWithL pat (c :: cs) = true ∨ containsSub cs pat = true := by
        have h2 : (startsWithL pat (c :: cs) || containsSub cs pat) = true := h
        simpa using h2
      rcases h3 with h1 | h1
      · exact ⟨0, by simp, by simpa using h1⟩
      · obtain ⟨j, hj1, hj2⟩ := ih h1
        exact ⟨j + 1, by simpa using hj1, hj2⟩

lemma containsSub_of_sw {hay pat : List Char} {j : Nat}
    (h : startsWithL pat (hay.drop j) = true) (hne : pat ≠ []) :
    containsSub hay pat = true := by
  induction hay generalizing j with
  | nil =>
      rw [List.drop_nil] at h
      exact absurd (sw_nil_iff.mp h) hne
  | cons c cs ih =>
      show (startsWithL pat (c :: cs) || containsSub cs pat) = true
      cases j with
      | zero =>
          rw [List.drop_zero] at h
          simp [h]
      | succ j =>
          simp [ih (j := j) h]

lemma containsSub_append_left_false {t pat : List Char} : ∀ {a : List Char},
    containsSub (a ++ t) pat = false → containsSub t pat = false := by
  intro a
  induction a with
  | nil => exact fun h => h
  | cons c a' ih =>
      intro h
      have h3 : (startsWithL pat (c :: (a' ++ t)) || containsSub (a' ++ t) pat) = false := h
      have h4 : startsWithL pat (c :: (a' ++ t)) = false ∧
          containsSub (a' ++ t) pat = false := by simpa using h3
      exact ih h4.2

lemma containsSub_append_right_false {b c pat : List Char} (hne : pat ≠ [])
    (h : containsSub (b ++ c) pat = false) : containsSub b pat = false := by
  cases hcb : containsSub b pat with
  | false => rfl
  | true =>
      obtain ⟨j, hj1, hj2⟩ := containsSub_true_exists hcb
      have hsw : startsWithL pat ((b ++ c).drop j) = true := by
        rw [List.drop_append_of_le_length hj1]
        exact sw_append c hj2
      have := containsSub_of_sw hsw hne
      rw [h] at this
      cases this

lemma containsSub_infix_false {w1 t w2 pat : List Char} (hne : pat ≠ [])
    (h : containsSub (w1 ++ t ++ w2) pat = false) : containsSub t pat = false := by
  rw [List.append_assoc] at h
  exact containsSub_append_right_false hne (containsSub_append_left_false h)

/-!
Section: Helper lemmas: the extracted group contains no fence
-/

lemma findInner_split : ∀ (u : List Char) {inner : List Char},
    findInner u = some inner → ∃ r, u = inner ++ r ∧ startsWithL ticksL r = true := by
  intro u
  induction u with
  | nil => intro inner h; cases h
  | cons c cs ih =>
      intro inner h
      rw [findInner_cons] at h
      by_cases hsw : startsWithL ticksL (c :: cs) = true
      · rw [if_pos hsw] at h
        have hinner : inner = [] := (Option.some.inj h).symm
        subst hinner
        exact ⟨c :: cs, rfl, hsw⟩
      · rw [if_neg hsw] at h
        cases hfi : findInner cs with
        | none => rw [hfi] at h; cases h
        | some r0 =>
            rw [hfi] at h
            have hinner : inner = c :: r0 := by simpa using h.symm
            obtain ⟨r, hcs, hr⟩ := ih hfi
            subst hinner
            refine ⟨r, ?_, hr⟩
            rw [hcs]
            simp

lemma findInner_no_ticks : ∀ (u : List Char) {inner : List Char},
    findInner u = some inner → containsSub inner ticksL = false := by
  intro u
  induction u with
  | nil => intro inner h; cases h
  | cons c cs ih =>
      intro inner h
      rw [findInner_cons] at h
      by_cases hsw : startsWithL ticksL (c :: cs) = true
      · rw [if_pos hsw] at h
        have hinner : inner = [] := (Option.some.inj h).symm
        subst hinner
        decide
      · rw [if_neg hsw] at h
        cases hfi : findInner cs with
        | none => rw [hfi] at h; cases h
        | some r0 =>
            rw [hfi] at h
            have hinner : inner = c :: r0 := by simpa using h.symm
            subst hinner
            show (startsWithL ticksL (c :: r0) || containsSub r0 ticksL) = false
            have h2 : containsSub r0 ticksL = false := ih hfi
            cases hb : startsWithL ticksL (c :: r0) with
            | false => rw [h2]; rfl
            | true =>
                obtain ⟨r, hcs, _⟩ := findInner_split cs hfi
                have hcon : startsWithL ticksL (c :: cs) = true := by
                  rw [hcs, ← List.cons_append]
                  exact sw_append r hb
                exact absurd hcon hsw

lemma matchFenceAt_inner_no_ticks {s inner : List Char}
    (h : matchFenceAt s = some inner) : containsSub inner ticksL = false := by
  unfold matchFenceAt at h
  by_cases hsw : startsWithL ticksL s = true
  · rw [if_pos hsw] at h
    exact findInner_no_ticks _ h
  · rw [if_neg hsw] at h
    cases h

lemma findFence_inner_no_ticks : ∀ (s : List Char) {inner : List Char},
    findFence s = some inner → containsSub inner ticksL = false := by
  intro s
  induction s with
  | nil =>
      intro inner h
      rw [show findFence [] = none from rfl] at h
      cases h
  | cons c cs ih =>
      intro inner h
      unfold findFence at h
      cases hm : matchFenceAt (c :: cs) with
      | some x =>
          rw [hm] at h
          have hx : x = inner := Option.some.inj h
          subst hx
          exact matchFenceAt_inner_no_ticks hm
      | none =>
          rw [hm] at h
          exact ih h

lemma findFence_none_of_no_ticks : ∀ {t : List Char},
    containsSub t ticksL = false → findFence t = none := by
  intro t
  induction t with
  | nil => intro _; rfl
  | cons c cs ih =>
      intro h
      have h2 : startsWithL ticksL (c :: cs) = false ∧ containsSub cs ticksL = false := by
        have h3 : (startsWithL ticksL (c :: cs) || containsSub cs ticksL) = false := h
        simpa using h3
      have hm : matchFenceAt (c :: cs) = none := by
        unfold matchFenceAt
        rw [if_neg (bool_neg h2.1)]
      unfold findFence
      rw [hm]
      exact ih h2.2

/-!
Section: Helper lemmas: the validator
-/

/-- Every deny-list rejection message begins with `Security violation`. -/
lemma secMsg_startsWith (p : Pattern) :
    startsWithL ("Security violation".toList) (secMsg p) = true := by
  have h : startsWithL ("Security violation".toList)
      ("Security violation: Forbidden pattern detected (".toList) = true := by decide
  have h2 := sw_append (t := p.source ++ ")".toList) h
  simpa [secMsg, List.append_assoc] using h2

lemma lastOr_mem : ∀ (w : List Char) (prev : Option Char) (c : Char),
    w ≠ [] → lastOr prev w = some c → c ∈ w := by
  intro w
  induction w with
  | nil => intro prev c h; exact absurd rfl h
  | cons x xs ih =>
      intro prev c _ h
      cases hx : xs with
      | nil =>
          subst hx
          simp [lastOr] at h
          simp [h]
      | cons y ys =>
          subst hx
          have := ih (some x) c (by simp) h
          simp [this]

/-- A full-sequence match at position `|a|` of `a ++ b` makes the search
succeed. -/
lemma searchFrom_append : ∀ (a : List Char) (prev : Option Char) (b : List Char)
    (es : List RElem), matchElems (lastOr prev a) b es = true →
    searchFrom prev (a ++ b) es = true := by
  intro a
  induction a with
  | nil =>
      intro prev b es h
      simp only [lastOr] at h
      cases b with
      | nil => simpa [searchFrom] using h
      | cons c cs => simp [searchFrom, h]
  | cons x xs ih =>
      intro prev b es h
      have h2 : searchFrom (some x) (xs ++ b) es = true :=
        ih (some x) b es h
      simp [searchFrom, h2]

/-- If some deny-list rule matches, `validateCode` rejects with the message
of the first rule that matches. -/
lemma validateCode_of_match {code : List Char} {p : Pattern}
    (hp : p ∈ FORBIDDEN_PATTERNS) (ht : testPat p code = true) :
    ∃ q ∈ FORBIDDEN_PATTERNS, testPat q code = true ∧
      validateCode code = ⟨false, some (secMsg q)⟩ := by
  cases hf : FORBIDDEN_PATTERNS.find? (fun p => testPat p code) with
  | none =>
      have := List.find?_eq_none.mp hf p hp
      simp [ht] at this
  | some q =>
      refine ⟨q, List.mem_of_find?_eq_some hf, ?_, ?_⟩
      · simpa using List.find?_some hf
      · simp [validateCode, hf]

/-- Predicate: `validateCode` rejects with a `Security violation` reason whenever any
deny-list rule matches. -/
def SecurityRejected (r : ValidationResult) : Prop :=
  r.valid = false ∧ ∃ m, r.error = some m ∧
    startsWithL ("Security violation".toList) m = true

lemma securityRejected_of_match {code : List Char} {p : Pattern}
    (hp : p ∈ FORBIDDEN_PATTERNS) (ht : testPat p code = true) :
    SecurityRejected (validateCode code) := by
  obtain ⟨q, _, _, hv⟩ := validateCode_of_match hp ht
  rw [hv]
  exact ⟨rfl, secMsg q, rfl, secMsg_startsWith q⟩

/-!
Section: Claims C1 and C3
-/

/-- Claim C1: for every fragment matching at least one deny-listed pattern,
`validateCode` rejects with the message naming the (first) rule that fired —
the rule sources interpolated into the messages are pairwise distinct — and
`executeThreeJSCode` throws exactly that rejection with zero sandboxed
evaluations performed. -/
theorem C1_deny_rejects_before_eval (code : List Char)
    (f : List Char → EvalOutcome)
    (h : ∃ p ∈ FORBIDDEN_PATTERNS, testPat p code = true) :
    (validateCode code).valid = false ∧
    (∃ q ∈ FORBIDDEN_PATTERNS, testPat q code = true ∧
      (validateCode code).error = some (secMsg q) ∧
      executeThreeJSCode f code = (ExecResult.thrown (secMsg q), 0)) ∧
    (FORBIDDEN_PATTERNS.map Pattern.source).Nodup := by
  obtain ⟨p, hp, ht⟩ := h
  obtain ⟨q, hq, htq, hv⟩ := validateCode_of_match hp ht
  refine ⟨by rw [hv], ⟨q, hq, htq, by rw [hv], ?_⟩, by decide⟩
  simp [executeThreeJSCode, hv]

/-- Witness for C1 at the concrete fragment `fetch(x)`. -/
theorem C1_deny_rejects_before_eval_witness :
    (validateCode ("fetch(x)".toList)).valid = false ∧
    (∃ q ∈ FORBIDDEN_PATTERNS, testPat q ("fetch(x)".toList) = true ∧
      (validateCode ("fetch(x)".toList)).error = some (secMsg q) ∧
      executeThreeJSCode (fun _ => EvalOutcome.thrown []) ("fetch(x)".toList)
        = (ExecResult.thrown (secMsg q), 0)) ∧
    (FORBIDDEN_PATTERNS.map Pattern.source).Nodup :=
  C1_deny_rejects_before_eval ("fetch(x)".toList) (fun _ => EvalOutcome.thrown [])
    ⟨patFetch, by decide, by decide⟩

/-- Claim C3: when no deny-listed pattern matches, `validateCode` accepts
exactly the fragments textually containing `function createObject`; in the
absence of that text the result is rejected with the structural message,
which differs from every deny-list message. -/
theorem C3_structural_requirement (code : List Char)
    (h : ∀ p ∈ FORBIDDEN_PATTERNS, testPat p code = false) :
    ((validateCode code).valid = true ↔
      containsSub code ("function createObject".toList) = true) ∧
    (containsSub code ("function createObject".toList) = false →
      (validateCode code).valid = false ∧
      (validateCode code).error = some structuralMsg ∧
      ∀ p ∈ FORBIDDEN_PATTERNS, structuralMsg ≠ secMsg p) := by
  have hf : FORBIDDEN_PATTERNS.find? (fun p => testPat p code) = none := by
    rw [List.find?_eq_none]
    intro p hp
    simp [h p hp]
  have hval : validateCode code =
      if containsSub code ("function createObject".toList) then
        ⟨true, none⟩
      else ⟨false, some structuralMsg⟩ := by
    unfold validateCode
    rw [hf]
  rw [hval]
  cases hc : containsSub code ("function createObject".toList) with
  | false => simp [hc]; decide
  | true => simp [hc]

/-!
Section: Helper lemmas for C9: matching a word-shaped rule at a known occurrence
-/

lemma isWordChar_of_lowerC {c t : Char} (ht : isWordChar t = true)
    (h : lowerC c = t) : isWordChar c = true := by
  unfold lowerC at h
  split at h
  · rename_i hr
    simp [isWordChar, hr]
  · subst h
    exact ht

lemma consumeLit_lower : ∀ (l w : List Char) (prev : Option Char) (b : List Char),
    w.map lowerC = l.map lowerC →
    consumeLit prev (w ++ b) l = some (lastOr prev w, b) := by
  intro l
  induction l with
  | nil =>
      intro w prev b h
      simp at h
      subst h
      rfl
  | cons l0 ls ih =>
      intro w prev b h
      cases w with
      | nil => simp at h
      | cons w0 ws =>
          simp at h
          obtain ⟨h0, hrest⟩ := h
          show (if lowerC w0 = lowerC l0 then consumeLit (some w0) (ws ++ b) ls
            else none) = some (lastOr prev (w0 :: ws), b)
          rw [if_pos h0]
          exact ih ws (some w0) b hrest

lemma matchElems_cons (prev : Option Char) (s : List Char) (e : RElem)
    (es : List RElem) :
    matchElems prev s (e :: es) =
      match matchElem prev s e with
      | none => false
      | some (p, s2) => matchElems p s2 es := rfl

lemma matchElem_wb (prev : Option Char) (s : List Char) :
    matchElem prev s RElem.wb =
      if boundaryB prev s = true then some (prev, s) else none := rfl

lemma matchElem_lit (prev : Option Char) (s l : List Char) :
    matchElem prev s (RElem.lit l) = consumeLit prev s l := rfl

lemma lastOr_cons_isSome : ∀ (ws : List Char) (p0 : Char),
    ∃ c, lastOr (some p0) ws = some c := by
  intro ws
  induction ws with
  | nil => intro p0; exact ⟨p0, rfl⟩
  | cons x xs ih => intro p0; exact ih x

/-- A case-insensitive occurrence of a `\bword\b` rule, flanked by
non-word-character (or absent) neighbours, matches. -/
lemma matchElems_wbLitWb {l w b : List Char} {prev : Option Char}
    (hmap : w.map lowerC = l.map lowerC)
    (hw0 : ∃ c0 ws, w = c0 :: ws ∧ isWordChar c0 = true)
    (hprev : prev = none ∨ ∃ cp, prev = some cp ∧ isWordChar cp = false)
    (hlast : ∀ c, lastOr prev w = some c → isWordChar c = true)
    (hb : b = [] ∨ ∃ c1 b2, b = c1 :: b2 ∧ isWordChar c1 = false) :
    matchElems prev (w ++ b) [RElem.wb, RElem.lit l, RElem.wb] = true := by
  obtain ⟨c0, ws, rfl, hc0⟩ := hw0
  have hb1 : boundaryB prev (c0 :: (ws ++ b)) = true := by
    rcases hprev with rfl | ⟨cp, rfl, hcp⟩
    · simp [boundaryB, hc0]
    · simp [boundaryB, hcp, hc0]
  obtain ⟨cl, hcl⟩ := lastOr_cons_isSome ws c0
  have hcl' : lastOr prev (c0 :: ws) = some cl := hcl
  have hclw : isWordChar cl = true := hlast cl hcl'
  have hb2 : boundaryB (some cl) b = true := by
    rcases hb with rfl | ⟨c1, b2, rfl, hc1⟩
    · simpa [boundaryB] using hclw
    · simp [boundaryB, hclw, hc1]
  have hlit : consumeLit prev (c0 :: (ws ++ b)) l = some (lastOr prev (c0 :: ws), b) :=
    consumeLit_lower l (c0 :: ws) prev b hmap
  show matchElems prev (c0 :: (ws ++ b)) [RElem.wb, RElem.lit l, RElem.wb] = true
  rw [matchElems_cons, matchElem_wb, hb1]
  show matchElems prev (c0 :: (ws ++ b)) [RElem.lit l, RElem.wb] = true
  rw [matchElems_cons, matchElem_lit, hlit, hcl']
  show matchElems (some cl) b [RElem.wb] = true
  rw [matchElems_cons, matchElem_wb, hb2]
  rfl

/-- A `function (` occurrence preceded by a word boundary matches the
`\bFunction\s*\(/i` rule. -/
lemma matchElems_function_paren (prev : Option Char) (b : List Char)
    (hprev : prev = none ∨ ∃ cp, prev = some cp ∧ isWordChar cp = false) :
    matchElems prev ("function (".toList ++ b) patFunction.elems = true := by
  rcases hprev with rfl | ⟨cp, rfl, hcp⟩
  · rfl
  · have hb1 : boundaryB (some cp) ("function (".toList ++ b) = true := by
      show boundaryB (some cp) ('f' :: ("unction (".toList ++ b)) = true
      simp only [boundaryB]
      rw [hcp]
      decide
    show matchElems (some cp) ("function (".toList ++ b)
      (RElem.wb :: [RElem.lit ("Function".toList), RElem.wsStar,
        RElem.lit ("(".toList)]) = true
    rw [matchElems_cons, matchElem_wb, hb1]
    rfl

/-- Claim C9: because the deny-list patterns are case-insensitive, fragments
built only from the allowed constructive vocabulary are rejected: a lowercase
anonymous-function token `function (` (preceded by a word boundary) matches
the dynamic-function-construction rule `\bFunction\s*\(/i`, and the word
`prototype` in any casing (word-bounded on both sides, e.g. inside a
comment) matches the prototype-tampering rule; each yields a security
rejection from `validateCode`. -/
theorem C9_case_insensitive_over_rejection :
    (∀ a b : List Char,
        (lastOr none a = none ∨ ∃ cp, lastOr none a = some cp ∧ isWordChar cp = false) →
        testPat patFunction (a ++ ("function (".toList ++ b)) = true ∧
        SecurityRejected (validateCode (a ++ ("function (".toList ++ b)))) ∧
    (∀ a w b : List Char,
        w.map lowerC = "prototype".toList →
        (lastOr none a = none ∨ ∃ cp, lastOr none a = some cp ∧ isWordChar cp = false) →
        (b = [] ∨ ∃ c1 b2, b = c1 :: b2 ∧ isWordChar c1 = false) →
        testPat patPrototype (a ++ (w ++ b)) = true ∧
        SecurityRejected (validateCode (a ++ (w ++ b)))) := by
  constructor
  · intro a b hprev
    have hm := matchElems_function_paren (lastOr none a) b hprev
    have ht : testPat patFunction (a ++ ("function (".toList ++ b)) = true :=
      searchFrom_append a none _ _ hm
    exact ⟨ht, securityRejected_of_match (p := patFunction) (by decide) ht⟩
  · intro a w b hmap hprev hb
    have hmap' : w.map lowerC = ("prototype".toList).map lowerC := by
      rw [hmap]; decide
    have hw0 : ∃ c0 ws, w = c0 :: ws ∧ isWordChar c0 = true := by
      cases w with
      | nil => simp at hmap
      | cons c0 ws =>
          refine ⟨c0, ws, rfl, ?_⟩
          have h0 : lowerC c0 = 'p' := by
            have := congrArg (fun l => l.head?) hmap
            simpa using this
          exact isWordChar_of_lowerC (by decide) h0
    have hlast : ∀ c, lastOr (lastOr none a) w = some c → isWordChar c = true := by
      intro c hc
      obtain ⟨c0, ws, rfl, _⟩ := hw0
      have hmem : c ∈ c0 :: ws := lastOr_mem _ _ _ (by simp) hc
      have hmem2 : lowerC c ∈ List.map lowerC (c0 :: ws) :=
        List.mem_map_of_mem lowerC hmem
      rw [hmap] at hmem2
      have : lowerC c = 'p' ∨ lowerC c = 'r' ∨ lowerC c = 'o' ∨ lowerC c = 't' ∨
          lowerC c = 'o' ∨ lowerC c = 't' ∨ lowerC c = 'y' ∨ lowerC c = 'p' ∨
          lowerC c = 'e' := by
        simpa using hmem2
      rcases this with h | h | h | h | h | h | h | h | h <;>
        exact isWordChar_of_lowerC (by decide) h
    have hm : matchElems (lastOr none a) (w ++ b)
        [RElem.wb, RElem.lit ("prototype".toList), RElem.wb] = true :=
      matchElems_wbLitWb hmap' hw0 hprev hlast hb
    have ht : testPat patPrototype (a ++ (w ++ b)) = true :=
      searchFrom_append a none _ _ hm
    exact ⟨ht, securityRejected_of_match (p := patPrototype) (by decide) ht⟩

/-- Witness for C9: a concrete allowed-vocabulary fragment with an anonymous
function, and a comment mentioning `PrOtOtYpE`. -/
theorem C9_case_insensitive_over_rejection_witness :
    (testPat patFunction ("const f = ".toList ++ ("function (".toList ++ ") => 0".toList)) = true ∧
      SecurityRejected (validateCode
        ("const f = ".toList ++ ("function (".toList ++ ") => 0".toList)))) ∧
    (testPat patPrototype ("// ".toList ++ ("PrOtOtYpE".toList ++ " chain".toList)) = true ∧
      SecurityRejected (validateCode
        ("// ".toList ++ ("PrOtOtYpE".toList ++ " chain".toList)))) :=
  ⟨C9_case_insensitive_over_rejection.1 ("const f = ".toList) (") => 0".toList)
      (Or.inr ⟨' ', by decide, by decide⟩),
   C9_case_insensitive_over_rejection.2 ("// ".toList) ("PrOtOtYpE".toList)
      (" chain".toList) (by decide) (Or.inr ⟨' ', by decide, by decide⟩)
      (Or.inr ⟨' ', "chain".toList, by decide, by decide⟩)⟩

/-!
Section: Helper lemmas: the executor
-/

lemma exec_invalid {code : List Char} (f : List Char → EvalOutcome)
    (h : (validateCode code).valid = false) :
    executeThreeJSCode f code =
      (ExecResult.thrown ((validateCode code).error.getD []), 0) := by
  unfold executeThreeJSCode
  simp [h]

lemma exec_valid {code : List Char} (f : List Char → EvalOutcome)
    (h : (validateCode code).valid = true) :
    executeThreeJSCode f code =
      (match f (wrapBody code) with
       | EvalOutcome.thrown m =>
           if containsSub m ("Security violation".toList) then
             (ExecResult.thrown m, 1)
           else (ExecResult.thrown ("Code execution failed: ".toList ++ m), 1)
       | EvalOutcome.ok v =>
           if truthy v = false then (ExecResult.thrown nullUndefMsg, 1)
           else if isObject3D v then (ExecResult.ok v, 1)
           else (ExecResult.thrown (wrongKindMsg v), 1)) := by
  unfold executeThreeJSCode
  simp [h]

/-!
Section: Claims C4 and C5
-/

/-- Claim C4, amended: for an accepted fragment whose entry point returns a
value that is not a `THREE.Object3D`, the executor fails and no node is
produced; the error describes the actual kind observed only for truthy
return values, while every falsy return (null, undefined, but also `false`,
`0`, `NaN`, the empty string) is reported with the null-or-undefined
message. -/
theorem C4_non_node_results (code : List Char) (f : List Char → EvalOutcome)
    (v : JSValue) (hcode : (validateCode code).valid = true)
    (hev : f (wrapBody code) = EvalOutcome.ok v) (hv : isObject3D v = false) :
    (truthy v = false →
      executeThreeJSCode f code = (ExecResult.thrown nullUndefMsg, 1)) ∧
    (truthy v = true →
      executeThreeJSCode f code = (ExecResult.thrown (wrongKindMsg v), 1)) ∧
    (∀ w n, executeThreeJSCode f code ≠ (ExecResult.ok w, n)) := by
  rw [exec_valid f hcode, hev]
  refine ⟨fun ht => by simp [ht], fun ht => by simp [ht, hv], fun w n => ?_⟩
  cases ht : truthy v <;> simp [ht, hv]

/-- The oracle of a run whose entry point returns the boolean `false`
(a present, non-qualifying value that is nevertheless falsy). -/
def evalRetFalse : List Char → EvalOutcome :=
  fun _ => EvalOutcome.ok (JSValue.prim false (some ("Boolean".toList)) ("boolean".toList))

def codeRetFalse : List Char :=
  "function createObject() \x7b return false; \x7d".toList

/-- Counterexample to claim C4 as stated: the accepted fragment returning
the present boolean value `false` is reported as `returned null or
undefined`; the message does not mention the actual kind (`Boolean`). -/
theorem C4_counterexample :
    executeThreeJSCode evalRetFalse codeRetFalse
      = (ExecResult.thrown nullUndefMsg, 1) ∧
    (JSValue.prim false (some ("Boolean".toList)) ("boolean".toList)) ≠ JSValue.nullV ∧
    (JSValue.prim false (some ("Boolean".toList)) ("boolean".toList)) ≠ JSValue.undefinedV ∧
    containsSub nullUndefMsg ("Boolean".toList) = false ∧
    containsSub nullUndefMsg ("boolean".toList) = false := by
  refine ⟨?_, by decide, by decide, by decide, by decide⟩
  have hc : (validateCode codeRetFalse).valid = true := by decide
  rw [exec_valid evalRetFalse hc]
  decide

/-- Witness for C4 at a truthy non-node return value. -/
theorem C4_non_node_results_witness :
    executeThreeJSCode (fun _ => EvalOutcome.ok
        (JSValue.prim true (some ("Number".toList)) ("number".toList)))
      ("function createObject() \x7b return 5; \x7d".toList)
      = (ExecResult.thrown (wrongKindMsg
          (JSValue.prim true (some ("Number".toList)) ("number".toList))), 1) :=
  (C4_non_node_results ("function createObject() \x7b return 5; \x7d".toList)
      (fun _ => EvalOutcome.ok
        (JSValue.prim true (some ("Number".toList)) ("number".toList)))
      (JSValue.prim true (some ("Number".toList)) ("number".toList))
      (by decide) rfl (by decide)).2.1 (by decide)

/-- Claim C5, amended: `executeThreeJSCode` performs the validation itself,
exactly once, up front: on inputs the validator rejects it throws the
validator's reason with zero evaluations, and on accepted inputs it performs
no further validation — the result is a function of the evaluation outcome
alone (two accepted fragments whose evaluations agree yield identical
results). -/
theorem C5_validation_inside_executor :
    (∀ (code : List Char) (f : List Char → EvalOutcome),
        (validateCode code).valid = false →
        executeThreeJSCode f code =
          (ExecResult.thrown ((validateCode code).error.getD []), 0)) ∧
    (∀ (c1 c2 : List Char) (f1 f2 : List Char → EvalOutcome),
        (validateCode c1).valid = true → (validateCode c2).valid = true →
        f1 (wrapBody c1) = f2 (wrapBody c2) →
        executeThreeJSCode f1 c1 = executeThreeJSCode f2 c2) := by
  constructor
  · intro code f h
    exact exec_invalid f h
  · intro c1 c2 f1 f2 h1 h2 he
    rw [exec_valid f1 h1, exec_valid f2 h2, he]

/-- An oracle that is never consulted in the counterexample run. -/
def evalNever : List Char → EvalOutcome := fun _ => EvalOutcome.thrown []

/-- Counterexample to claim C5 as stated: there is an input on which
`executeThreeJSCode` fails with precisely the validator's rejection
reason (and performs zero evaluations while doing so). -/
theorem C5_counterexample :
    executeThreeJSCode evalNever ("fetch(x)".toList)
      = (ExecResult.thrown (secMsg patFetch), 0) ∧
    validateCode ("fetch(x)".toList) = ⟨false, some (secMsg patFetch)⟩ := by
  decide

/-- Witness for C5 at concrete inputs. -/
theorem C5_validation_inside_executor_witness :
    executeThreeJSCode evalNever ("fetch(x)".toList)
      = (ExecResult.thrown ((validateCode ("fetch(x)".toList)).error.getD []), 0) ∧
    executeThreeJSCode (fun _ => EvalOutcome.thrown ("boom".toList))
        ("function createObject() \x7b return 1; \x7d".toList)
      = executeThreeJSCode (fun _ => EvalOutcome.thrown ("boom".toList))
        ("function createObject() \x7b return 2; \x7d".toList) :=
  ⟨C5_validation_inside_executor.1 ("fetch(x)".toList) evalNever (by decide),
   C5_validation_inside_executor.2
      ("function createObject() \x7b return 1; \x7d".toList)
      ("function createObject() \x7b return 2; \x7d".toList)
      (fun _ => EvalOutcome.thrown ("boom".toList))
      (fun _ => EvalOutcome.thrown ("boom".toList))
      (by decide) (by decide) rfl⟩

/-!
Section: Helper lemmas and claim C8: the exporters
-/

lemma gltfKeep_eq_user {c : SceneChild}
    (h : isUserNode c = true ∨ isInfraNode c = true) :
    gltfKeep c = isUserNode c := by
  rcases c with ⟨g, l, s, hm, ms, me, gr⟩
  revert g l s hm ms me gr
  decide

lemma objKeep_eq_user {c : SceneChild}
    (h : isUserNode c = true ∨ isInfraNode c = true) :
    objKeep c = isUserNode c := by
  rcases c with ⟨g, l, s, hm, ms, me, gr⟩
  revert g l s hm ms me gr
  decide

lemma user_not_infra {c : SceneChild} (h : isUserNode c = true) :
    isInfraNode c = false := by
  rcases c with ⟨g, l, s, hm, ms, me, gr⟩
  revert g l s hm ms me gr
  decide

/-- Claim C8: on a scene whose top-level children are user nodes (meshes or
groups) and infrastructure nodes (grid helper, lights, shadow-material
ground plane), both export-scene constructions select exactly the user
nodes and no infrastructure node; with exactly two user nodes, both select
exactly two children. -/
theorem C8_exports_select_user_nodes (children : List SceneChild)
    (h : ∀ c ∈ children, isUserNode c = true ∨ isInfraNode c = true) :
    exportGLTFChildren children = children.filter isUserNode ∧
    exportOBJChildren children = children.filter isUserNode ∧
    (∀ c ∈ exportGLTFChildren children, isUserNode c = true ∧ isInfraNode c = false) ∧
    (∀ c ∈ exportOBJChildren children, isUserNode c = true ∧ isInfraNode c = false) ∧
    (children.countP isUserNode = 2 →
      (exportGLTFChildren children).length = 2 ∧
      (exportOBJChildren children).length = 2) := by
  have hg : exportGLTFChildren children = children.filter isUserNode := by
    unfold exportGLTFChildren
    exact List.filter_congr (fun c hc => gltfKeep_eq_user (h c hc))
  have ho : exportOBJChildren children = children.filter isUserNode := by
    unfold exportOBJChildren
    exact List.filter_congr (fun c hc => objKeep_eq_user (h c hc))
  refine ⟨hg, ho, ?_, ?_, ?_⟩
  · intro c hc
    rw [hg] at hc
    have hu := (List.mem_filter.mp hc).2
    exact ⟨hu, user_not_infra hu⟩
  · intro c hc
    rw [ho] at hc
    have hu := (List.mem_filter.mp hc).2
    exact ⟨hu, user_not_infra hu⟩
  · intro h2
    constructor
    · rw [hg, ← List.countP_eq_length_filter, h2]
    · rw [ho, ← List.countP_eq_length_filter, h2]

/-- A concrete scene: grid helper, two lights, the shadow-material ground
plane, one user mesh and one user group. -/
def exampleScene : List SceneChild :=
  [⟨true, false, false, false, false, false, false⟩,
   ⟨false, true, false, false, false, false, false⟩,
   ⟨false, true, false, false, false, false, false⟩,
   ⟨false, false, false, true, true, true, false⟩,
   ⟨false, false, false, true, false, true, false⟩,
   ⟨false, false, false, false, false, false, true⟩]

/-- Witness for C8 on the concrete scene. -/
theorem C8_exports_select_user_nodes_witness :
    (exportGLTFChildren exampleScene).length = 2 ∧
    (exportOBJChildren exampleScene).length = 2 ∧
    (∀ c ∈ exportGLTFChildren exampleScene,
      isUserNode c = true ∧ isInfraNode c = false) :=
  have h := C8_exports_select_user_nodes exampleScene (by decide)
  ⟨(h.2.2.2.2 (by decide)).1, (h.2.2.2.2 (by decide)).2, h.2.2.1⟩

/-!
Section: Claims C6, C7 and C10: the extractor
-/

/-- The fence regex matches at position `i` and at no earlier position:
`inner` is the group of the first fenced block of `s`. -/
def FirstFence (s : List Char) (i : Nat) (inner : List Char) : Prop :=
  matchFenceAt (s.drop i) = some inner ∧ ∀ j, j < i → matchFenceAt (s.drop j) = none

/-- Claim C6: when the input contains a fenced code block, `cleanCode`
returns the inner text of the first such block trimmed; otherwise it returns
the whole input trimmed.  (`cleanCode` is a total function of the model, so
it never throws.) -/
theorem C6_cleanCode_extraction (s : List Char) :
    (∀ (i : Nat) (inner : List Char), FirstFence s i inner →
      cleanCode s = jsTrim inner) ∧
    ((∀ j, matchFenceAt (s.drop j) = none) → cleanCode s = jsTrim s) := by
  constructor
  · intro i inner hf
    have hff := findFence_of_first s i inner hf.1 hf.2
    unfold cleanCode
    rw [hff]
  · intro h
    have hff := findFence_none s h
    unfold cleanCode
    rw [hff]

/-- Witness for C6: the first fenced block of `x ```js\nfoo``` ` starts at
position 2 with inner text `foo`. -/
theorem C6_cleanCode_extraction_witness :
    FirstFence ("x ```js\nfoo```".toList) 2 ("foo".toList) ∧
    cleanCode ("x ```js\nfoo```".toList) = jsTrim ("foo".toList) :=
  ⟨⟨by decide, by decide⟩,
   (C6_cleanCode_extraction ("x ```js\nfoo```".toList)).1 2 ("foo".toList)
     ⟨by decide, by decide⟩⟩

lemma sw_ticks_append_nl : ∀ {u : List Char} (r : List Char),
    startsWithL ticksL u = false →
    startsWithL ticksL (u ++ '\n' :: r) = false := by
  intro u r h
  rcases u with _ | ⟨a, _ | ⟨b, _ | ⟨c, rest⟩⟩⟩
  · simp [ticksL, startsWithL]
  · simp [ticksL, startsWithL]
  · simp [ticksL, startsWithL]
  · simp only [ticksL, startsWithL, List.cons_append] at h ⊢
    simpa using by simpa using h

lemma findInner_wrap : ∀ {x : List Char}, containsSub x ticksL = false →
    findInner (x ++ '\n' :: ticksL) = some (x ++ ['\n']) := by
  intro x
  induction x with
  | nil => intro _; decide
  | cons c cs ih =>
      intro h
      have h2 : startsWithL ticksL (c :: cs) = false ∧ containsSub cs ticksL = false := by
        have h3 : (startsWithL ticksL (c :: cs) || containsSub cs ticksL) = false := h
        simpa using h3
      rw [List.cons_append, findInner_cons]
      have hsw : startsWithL ticksL (c :: (cs ++ '\n' :: ticksL)) = false := by
        rw [← List.cons_append]
        exact sw_ticks_append_nl _ h2.1
      rw [if_neg (bool_neg hsw), ih h2.2]
      simp

/-- Claim C7: round-trip — for code text containing no fence terminator,
extracting from the fenced wrapping recovers the trimmed text. -/
theorem C7_round_trip (x : List Char) (h : containsSub x ticksL = false) :
    cleanCode (wrapFence x) = jsTrim x := by
  have e1 : wrapFence x = "```javascript\n".toList ++ (x ++ "\n```".toList) := by
    unfold wrapFence
    rw [List.append_assoc]
  have hm : matchFenceAt (wrapFence x) = some (x ++ ['\n']) := by
    rw [e1]
    unfold matchFenceAt
    have hsw : startsWithL ticksL
        ("```javascript\n".toList ++ (x ++ "\n```".toList)) = true :=
      sw_append _ (by decide)
    rw [if_pos hsw, List.drop_append_of_le_length (by decide)]
    have e2 : ("```javascript\n".toList).drop 3 = "javascript\n".toList := by decide
    rw [e2]
    have e3 : langStep ("javascript\n".toList ++ (x ++ "\n```".toList))
        = "\n".toList ++ (x ++ "\n```".toList) := by
      unfold langStep
      have hj : startsWithL ("javascript".toList)
          ("javascript\n".toList ++ (x ++ "\n```".toList)) = true :=
        sw_append _ (by decide)
      rw [if_pos hj, List.drop_append_of_le_length (by decide)]
      have e0 : ("javascript\n".toList).drop 10 = "\n".toList := by decide
      rw [e0]
    rw [e3]
    have e4 : nlStep ("\n".toList ++ (x ++ "\n```".toList)) = x ++ "\n```".toList := by
      show nlStep ('\n' :: (x ++ "\n```".toList)) = x ++ "\n```".toList
      simp [nlStep]
    rw [e4]
    have e5 : x ++ "\n```".toList = x ++ '\n' :: ticksL := rfl
    rw [e5]
    exact findInner_wrap h
  have hff : findFence (wrapFence x) = some (x ++ ['\n']) :=
    findFence_of_first (wrapFence x) 0 _ (by simpa using hm)
      (fun j hj => absurd hj (Nat.not_lt_zero j))
  unfold cleanCode
  rw [hff]
  exact jsTrim_append_ws x (by decide)

/-- Witness for C7 at the concrete code text `let a = 1;`. -/
theorem C7_round_trip_witness :
    cleanCode (wrapFence ("let a = 1;".toList)) = jsTrim ("let a = 1;".toList) :=
  C7_round_trip ("let a = 1;".toList) (by decide)

/-- Claim C10: `cleanCode` is idempotent — the inner text of the first
fenced block never contains a complete fence, and trimming is idempotent. -/
theorem C10_cleanCode_idempotent (s : List Char) :
    cleanCode (cleanCode s) = cleanCode s := by
  cases hf : findFence s with
  | some inner =>
      have h1 : cleanCode s = jsTrim inner := by
        unfold cleanCode
        rw [hf]
      have hni : containsSub inner ticksL = false := findFence_inner_no_ticks s hf
      obtain ⟨w1, w2, hdec, _, _⟩ := jsTrim_decomp inner
      have hni2 : containsSub (jsTrim inner) ticksL = false := by
        refine containsSub_infix_false (by decide) (?_ : containsSub (w1 ++ jsTrim inner ++ w2) ticksL = false)
        rw [← hdec]
        exact hni
      have hffn : findFence (jsTrim inner) = none := findFence_none_of_no_ticks hni2
      rw [h1]
      unfold cleanCode
      rw [hffn, jsTrim_idem]
  | none =>
      have h1 : cleanCode s = jsTrim s := by
        unfold cleanCode
        rw [hf]
      have hall : ∀ j, matchFenceAt (s.drop j) = none := findFence_none_all s hf
      have hffn : findFence (jsTrim s) = none := by
        cases hf2 : findFence (jsTrim s) with
        | none => rfl
        | some inner =>
            obtain ⟨j, hj⟩ := findFence_exists_of_some _ _ hf2
            have hjlen : j ≤ (jsTrim s).length := by
              by_contra hgt
              push_neg at hgt
              rw [List.drop_eq_nil_of_le (le_of_lt hgt), matchFenceAt_nil] at hj
              cases hj
            obtain ⟨w1, w2, hdec, _, hs2⟩ := jsTrim_decomp s
            have h2 : matchFenceAt ((jsTrim s).drop j ++ w2) = some inner :=
              matchFenceAt_append_ws hs2 hj
            have h3 : s.drop (w1.length + j) = (jsTrim s).drop j ++ w2 := by
              conv_lhs => rw [hdec, List.append_assoc]

              rw [List.drop_append j, List.drop_append_of_le_length hjlen]
            rw [← h3] at h2
            rw [hall (w1.length + j)] at h2
            cases h2
      rw [h1]
      unfold cleanCode
      rw [hffn, jsTrim_idem]

/-- Witness for C3 at the concrete fragment `hello`. -/
theorem C3_structural_requirement_witness :
    (((validateCode ("hello".toList)).valid = true ↔
      containsSub ("hello".toList) ("function createObject".toList) = true) ∧
    (containsSub ("hello".toList) ("function createObject".toList) = false →
      (validateCode ("hello".toList)).valid = false ∧
      (validateCode ("hello".toList)).error = some structuralMsg ∧
      ∀ p ∈ FORBIDDEN_PATTERNS, structuralMsg ≠ secMsg p)) ∧
    containsSub ("hello".toList) ("function createObject".toList) = false :=
  ⟨C3_structural_requirement ("hello".toList) (by decide), by decide⟩
